import Mathlib

/-!
# OpenView: column classification, conversion and relation detection

A shallow embedding of the four table functions of `ovViewQuickItem.cxx`
(`columnDomains`, `columnTypes`, `convertTableColumns`, `columnRelations`)
together with `basicType`, and the properties of them stated by the
specification.

Modelling decisions

* A `vtkTable` is a list of named columns; a column is a typed array
  (`vtkStringArray`, `vtkIntArray`, `vtkDoubleArray`).
* The conversions of `vtkVariant` (text rendering of a number, parsing of a
  text as a real or as an integer, `std::modf`) belong to the VTK library and
  are taken as a parameter `VariantOps`; every general theorem holds for all
  instances.  `decimalOps` is one concrete instance, used to evaluate the
  functions on concrete tables.
* The thresholds `0.95`, `0.01`, `0.9` are read as exact rationals and the
  counters as natural numbers.  The source computes the tests in `double`;
  `chooseTypeBinary64_eq` and its lemmas show that the binary64 evaluation
  has the same outcome for every table of fewer than `2 ^ 40` rows.
-/

namespace OpenView

/-! ## Data model -/

/-- The value held by a `vtkVariant`: a text, a C `int` or a `double`
(values of type `D`). -/
inductive Variant (D : Type) where
  | str (s : String)
  | int (i : Int)
  | dbl (d : D)
deriving DecidableEq

/-- The backing store of a column: `vtkStringArray`, `vtkIntArray` or
`vtkDoubleArray`. -/
inductive Storage (D : Type) where
  | strings (vals : List String)
  | ints (vals : List Int)
  | doubles (vals : List D)
deriving DecidableEq

/-- A named column (`vtkAbstractArray` with its `GetName`). -/
structure Column (D : Type) where
  name : String
  data : Storage D
deriving DecidableEq

/-- A `vtkTable`: its columns in order. -/
structure Table (D : Type) where
  columns : List (Column D)
deriving DecidableEq

/-- The conversions of `vtkVariant` that the table functions call.  They are
library code; the table functions are modelled for every choice of them.

* `renderInt`, `renderDbl`: `vtkVariant::ToString` of an `int` / a `double`;
* `parseDouble s`: `vtkVariant(s).ToDouble(&ok)`, the value and the `ok` flag;
* `hasFraction d`: `std::modf(d, &dummy) != 0.0`;
* `parseInt s`: `vtkVariant(s).ToInt()`;
* `intToDbl`, `dblToInt`: the C++ casts between `int` and `double`. -/
structure VariantOps (D : Type) where
  renderInt : Int → String
  renderDbl : D → String
  parseDouble : String → D × Bool
  hasFraction : D → Bool
  parseInt : String → Int
  intToDbl : Int → D
  dblToInt : D → Int

variable {D : Type}

/-- `vtkVariant::ToString`. -/
def Variant.ToString (ops : VariantOps D) : Variant D → String
  | .str s => s
  | .int i => ops.renderInt i
  | .dbl d => ops.renderDbl d

/-- `vtkVariant::ToDouble()`. -/
def Variant.ToDouble (ops : VariantOps D) : Variant D → D
  | .str s => (ops.parseDouble s).1
  | .int i => ops.intToDbl i
  | .dbl d => d

/-- `vtkVariant::ToInt()`. -/
def Variant.ToInt (ops : VariantOps D) : Variant D → Int
  | .str s => ops.parseInt s
  | .int i => i
  | .dbl d => ops.dblToInt d

/-- `vtkAbstractArray::GetNumberOfTuples`. -/
def Storage.GetNumberOfTuples : Storage D → Nat
  | .strings vals => vals.length
  | .ints vals => vals.length
  | .doubles vals => vals.length

/-- `vtkAbstractArray::GetVariantValue`.  An index past the end of the array
(never read on a table whose columns have `GetNumberOfRows` cells) yields the
empty text. -/
def Storage.GetVariantValue : Storage D → Nat → Variant D
  | .strings vals, row => (vals[row]?).elim (.str "") .str
  | .ints vals, row => (vals[row]?).elim (.str "") .int
  | .doubles vals, row => (vals[row]?).elim (.str "") .dbl

/-- `vtkTable::GetNumberOfColumns`. -/
def Table.GetNumberOfColumns (table : Table D) : Nat :=
  table.columns.length

/-- `vtkTable::GetNumberOfRows`: the number of tuples of the first column,
`0` for a table without columns. -/
def Table.GetNumberOfRows (table : Table D) : Nat :=
  match table.columns with
  | [] => 0
  | c :: _ => c.data.GetNumberOfTuples

/-- `vtkTable::GetValue(row, col)`. -/
def Table.GetValue (table : Table D) (row col : Nat) : Variant D :=
  match table.columns[col]? with
  | some c => c.data.GetVariantValue row
  | none => .str ""

/-- The invariant of the data model: all columns have equal row count. -/
def Table.Rectangular (table : Table D) : Prop :=
  ∀ c ∈ table.columns, c.data.GetNumberOfTuples = table.GetNumberOfRows

/-! ## The enumerations of `ovViewQuickItem.h` -/

/-- Modelled from the spec: the semantic type tags are declared in the header
`ovViewQuickItem.h`, which is not among the sources; the five tags are taken
as five distinct `int` values. -/
def INTEGER_CATEGORY : Int := 0

/-- Modelled from the spec: see `INTEGER_CATEGORY`. -/
def INTEGER_DATA : Int := 1

/-- Modelled from the spec: see `INTEGER_CATEGORY`. -/
def CONTINUOUS : Int := 2

/-- Modelled from the spec: see `INTEGER_CATEGORY`. -/
def STRING_CATEGORY : Int := 3

/-- Modelled from the spec: see `INTEGER_CATEGORY`. -/
def STRING_DATA : Int := 4

/-- Modelled from the spec: the relation tags are declared in the header
`ovViewQuickItem.h`, which is not among the sources; `UNRELATED` is taken to
be the zero value with which the relation matrix is initialised. -/
def UNRELATED : Int := 0

/-- Modelled from the spec: see `UNRELATED`. -/
def SHARED_DOMAIN : Int := 1

/-! ## The threshold tests

The three tests `n > 0.95 * numRow`, `n > 0.01 * numRow`, `n < 0.9 * numRow`
between a counter and a fraction of the row count are stated over the
rationals; they are decided in integer arithmetic. -/

/-- The test `n > 0.95 * r` is decided as `95 * r < 100 * n`. -/
instance decGt095 (n r : Nat) : Decidable ((n : ℚ) > 0.95 * (r : ℚ)) :=
  decidable_of_iff (95 * r < 100 * n) (by
    rw [← @Nat.cast_lt ℚ]
    push_cast
    constructor <;> intro h <;> norm_num at h ⊢ <;> linarith)

/-- The test `n > 0.01 * r` is decided as `r < 100 * n`. -/
instance decGt001 (n r : Nat) : Decidable ((n : ℚ) > 0.01 * (r : ℚ)) :=
  decidable_of_iff (r < 100 * n) (by
    rw [← @Nat.cast_lt ℚ]
    push_cast
    constructor <;> intro h <;> norm_num at h ⊢ <;> linarith)

/-- The test `n < 0.9 * r` is decided as `10 * n < 9 * r`. -/
instance decLt09 (n r : Nat) : Decidable ((n : ℚ) < 0.9 * (r : ℚ)) :=
  decidable_of_iff (10 * n < 9 * r) (by
    rw [← @Nat.cast_lt ℚ]
    push_cast
    constructor <;> intro h <;> norm_num at h ⊢ <;> linarith)

/-! ## The functions of `ovViewQuickItem.cxx` -/

/-- `ovViewQuickItem::basicType`. -/
def basicType (type : Int) : Int :=
  if type = INTEGER_DATA ∨ type = INTEGER_CATEGORY then 0
  else if type = STRING_DATA ∨ type = STRING_CATEGORY then 1
  else 2

/-- One pass of the row loop of `columnTypes`: the counters
`(numFractional, numNumeric)` after looking at cell `(row, col)`. -/
def countCell (ops : VariantOps D) (table : Table D) (col : Nat)
    (counters : Nat × Nat) (row : Nat) : Nat × Nat :=
  let stringVal := (table.GetValue row col).ToString ops
  let parsed := ops.parseDouble stringVal
  if parsed.2 then
    if ops.hasFraction parsed.1 then (counters.1 + 1, counters.2 + 1)
    else (counters.1, counters.2 + 1)
  else counters

/-- The decision of `columnTypes` for one column, from its three counters. -/
def chooseType (numRow numFractional numNumeric numDistinct : Nat) : Int :=
  if (numNumeric : ℚ) > 0.95 * (numRow : ℚ) then
    if (numFractional : ℚ) > 0.01 * (numRow : ℚ) then CONTINUOUS
    else if (numDistinct : ℚ) < 0.9 * (numRow : ℚ) then INTEGER_CATEGORY
    else INTEGER_DATA
  else
    if (numDistinct : ℚ) < 0.9 * (numRow : ℚ) then STRING_CATEGORY
    else STRING_DATA

/-- `ovViewQuickItem::columnTypes`. -/
def columnTypes (ops : VariantOps D) (table : Table D)
    (domains : List (Finset String)) : List Int :=
  let numRow := table.GetNumberOfRows
  let numCol := table.GetNumberOfColumns
  (List.range numCol).foldl
    (fun types col =>
      let counters := (List.range numRow).foldl (countCell ops table col) (0, 0)
      let numDistinct := (domains.getD col ∅).card
      types.set col (chooseType numRow counters.1 counters.2 numDistinct))
    (List.replicate numCol 0)

/-- `ovViewQuickItem::columnDomains`. -/
def columnDomains (ops : VariantOps D) (table : Table D) : List (Finset String) :=
  let numRow := table.GetNumberOfRows
  let numCol := table.GetNumberOfColumns
  (List.range numCol).foldl
    (fun domains col =>
      let distinct := (List.range numRow).foldl
        (fun distinct row => insert ((table.GetValue row col).ToString ops) distinct)
        (∅ : Finset String)
      domains.set col distinct)
    (List.replicate numCol ∅)

/-- The column that `convertTableColumns` adds to the output table for the
input column `arr` of type tag `type`. -/
def convertColumn (ops : VariantOps D) (numRow : Nat) (arr : Column D) (type : Int) :
    Column D :=
  if type = CONTINUOUS then
    { name := arr.name
      data := .doubles ((List.range numRow).map
        (fun row => (arr.data.GetVariantValue row).ToDouble ops)) }
  else if type = INTEGER_CATEGORY ∨ type = INTEGER_DATA then
    { name := arr.name
      data := .ints ((List.range numRow).map
        (fun row => (arr.data.GetVariantValue row).ToInt ops)) }
  else arr

/-- `ovViewQuickItem::convertTableColumns`; the result is the table after the
final `ShallowCopy`.  `AddColumn` appends the column to the output table. -/
def convertTableColumns (ops : VariantOps D) (table : Table D) (types : List Int) :
    Table D :=
  let numRow := table.GetNumberOfRows
  let numCol := table.GetNumberOfColumns
  (List.range numCol).foldl
    (fun out col =>
      match table.columns[col]? with
      | some arr => { columns := out.columns ++ [convertColumn ops numRow arr (types.getD col 0)] }
      | none => out)
    { columns := [] }

/-- The assignment `relations[col1][col2] = value`. -/
def setRelation (relations : List (List Int)) (col1 col2 : Nat) (value : Int) :
    List (List Int) :=
  relations.set col1 ((relations.getD col1 []).set col2 value)

/-- The inner loop of `columnRelations` for the outer column `col1`, over the
remaining values of `col2`; the first branch is the one that ends in
`break`. -/
def relateFrom (numRow : Nat) (domains : List (Finset String)) (types : List Int)
    (col1 : Nat) : List Nat → List (List Int) → List (List Int)
  | [], relations => relations
  | col2 :: rest, relations =>
    let col1BasicType := basicType (types.getD col1 0)
    let col2BasicType := basicType (types.getD col2 0)
    if col1BasicType ≠ col2BasicType ∨ col1BasicType = 2 then
      setRelation relations col1 col2 UNRELATED
    else
      let isect := domains.getD col1 ∅ ∩ domains.getD col2 ∅
      let numShared := isect.card
      if (numShared : ℚ) > 0.01 * (numRow : ℚ) then
        relateFrom numRow domains types col1 rest
          (setRelation relations col1 col2 SHARED_DOMAIN)
      else
        relateFrom numRow domains types col1 rest
          (setRelation relations col1 col2 UNRELATED)

/-- `ovViewQuickItem::columnRelations`. -/
def columnRelations (table : Table D) (domains : List (Finset String))
    (types : List Int) : List (List Int) :=
  let numRow := table.GetNumberOfRows
  let numCol := table.GetNumberOfColumns
  (List.range numCol).foldl
    (fun relations col1 =>
      relateFrom numRow domains types col1
        (List.range' (col1 + 1) (numCol - (col1 + 1))) relations)
    (List.replicate numCol (List.replicate numCol 0))

/-- The entry `relations[i][j]`. -/
def relationAt (relations : List (List Int)) (i j : Nat) : Int :=
  (relations.getD i []).getD j 0

/-! ## The threshold tests in binary64 arithmetic

The source evaluates `0.95 * numRow`, `0.01 * numRow` and `0.9 * numRow` in
`double`: the constant is the binary64 number nearest to the decimal, the
row count and the counter are converted exactly, and the product is rounded
to 53 significant bits, ties to even.  With the constant `sig * 2 ^ (-k)`, the
product is `round53 (sig * numRow) * 2 ^ (-k)`. -/

/-- Rounding of a natural number to 53 significant bits, to nearest, ties to
even.  The unit in the last place is `2 ^ (Nat.log 2 P - 52)`. -/
def round53 (P : Nat) : Nat :=
  if 2 ^ (Nat.log 2 P - 52) < 2 * (P % 2 ^ (Nat.log 2 P - 52)) ∨
      (2 * (P % 2 ^ (Nat.log 2 P - 52)) = 2 ^ (Nat.log 2 P - 52) ∧
        (P / 2 ^ (Nat.log 2 P - 52)) % 2 = 1) then
    (P / 2 ^ (Nat.log 2 P - 52) + 1) * 2 ^ (Nat.log 2 P - 52)
  else P / 2 ^ (Nat.log 2 P - 52) * 2 ^ (Nat.log 2 P - 52)

/-- The binary64 constant `0.95` is `sig095 * 2 ^ (-53)`
(`0x1.e666666666666p-1`). -/
def sig095 : Nat := 8556839292003942

/-- The binary64 constant `0.01` is `sig001 * 2 ^ (-59)`
(`0x1.47ae147ae147bp-7`). -/
def sig001 : Nat := 5764607523034235

/-- The binary64 constant `0.9` is `sig09 * 2 ^ (-53)`
(`0x1.ccccccccccccdp-1`). -/
def sig09 : Nat := 8106479329266893

/-- The test `n > 0.95 * numRow` as evaluated in binary64. -/
def gt095Binary64 (n numRow : Nat) : Prop :=
  round53 (sig095 * numRow) < n * 2 ^ 53

/-- The test `n > 0.01 * numRow` as evaluated in binary64. -/
def gt001Binary64 (n numRow : Nat) : Prop :=
  round53 (sig001 * numRow) < n * 2 ^ 59

/-- The test `n < 0.9 * numRow` as evaluated in binary64. -/
def lt09Binary64 (n numRow : Nat) : Prop :=
  n * 2 ^ 53 < round53 (sig09 * numRow)

instance decGt095Binary64 (n numRow : Nat) : Decidable (gt095Binary64 n numRow) := by
  unfold gt095Binary64; infer_instance

instance decGt001Binary64 (n numRow : Nat) : Decidable (gt001Binary64 n numRow) := by
  unfold gt001Binary64; infer_instance

instance decLt09Binary64 (n numRow : Nat) : Decidable (lt09Binary64 n numRow) := by
  unfold lt09Binary64; infer_instance

/-- The decision of `columnTypes` for one column with the three tests
evaluated in binary64. -/
def chooseTypeBinary64 (numRow numFractional numNumeric numDistinct : Nat) : Int :=
  if gt095Binary64 numNumeric numRow then
    if gt001Binary64 numFractional numRow then CONTINUOUS
    else if lt09Binary64 numDistinct numRow then INTEGER_CATEGORY
    else INTEGER_DATA
  else
    if lt09Binary64 numDistinct numRow then STRING_CATEGORY
    else STRING_DATA

/-! ## A concrete instance of the variant conversions -/

/-- A decimal number `mantissa / 10 ^ scale`, the real numbers of the
concrete instance. -/
structure Decimal where
  mantissa : Int
  scale : Nat
deriving DecidableEq

/-- The value of a decimal digit, if the character is one. -/
def digitValue (c : Char) : Option Nat :=
  if 48 ≤ c.toNat ∧ c.toNat ≤ 57 then some (c.toNat - 48) else none

/-- Reads a run of decimal digits: the value so far, the number of digits
read and the rest of the input. -/
def readDigits : List Char → Nat → Nat → Nat × Nat × List Char
  | [], acc, n => (acc, n, [])
  | c :: cs, acc, n =>
    match digitValue c with
    | some d => readDigits cs (10 * acc + d) (n + 1)
    | none => (acc, n, c :: cs)

/-- Reads an unsigned decimal literal `digits[.digits]` as mantissa and
scale; `none` when there is no digit at all or when input is left over. -/
def readUnsigned (cs : List Char) : Option (Nat × Nat) :=
  match readDigits cs 0 0 with
  | (whole, n, []) => if n = 0 then none else some (whole, 0)
  | (whole, n, c :: rest) =>
    if c = '.' then
      match readDigits rest whole 0 with
      | (all, m, []) => if n + m = 0 then none else some (all, m)
      | _ => none
    else none

/-- Reads a signed decimal literal. -/
def readDecimal (cs : List Char) : Option Decimal :=
  match cs with
  | '-' :: rest => (readUnsigned rest).map (fun p => ⟨-(p.1 : Int), p.2⟩)
  | '+' :: rest => (readUnsigned rest).map (fun p => ⟨(p.1 : Int), p.2⟩)
  | _ => (readUnsigned cs).map (fun p => ⟨(p.1 : Int), p.2⟩)

/-- Modelled from the spec: `vtkVariant(s).ToDouble(&ok)` of the VTK library,
which is not among the sources: the parsing of a cell text as a real number,
here for the plain decimal literals `[+-]digits[.digits]`; any other text
does not parse, and the value is then `0`. -/
def decimalParseDouble (s : String) : Decimal × Bool :=
  match readDecimal s.data with
  | some q => (q, true)
  | none => (⟨0, 0⟩, false)

/-- Modelled from the spec: `vtkVariant(s).ToInt()` of the VTK library, which
is not among the sources: the parsing of a cell text as an integer, the value
of the leading signed run of digits, `0` when there is none. -/
def decimalParseInt (s : String) : Int :=
  match s.data with
  | '-' :: rest => - ((readDigits rest 0 0).1 : Int)
  | '+' :: rest => ((readDigits rest 0 0).1 : Int)
  | cs => ((readDigits cs 0 0).1 : Int)

/-- The decimal digits of a natural number, most significant first; `fuel`
bounds the number of digits. -/
def natDigits : Nat → Nat → List Char
  | 0, _ => []
  | fuel + 1, n =>
    if n < 10 then [Char.ofNat (48 + n)]
    else natDigits fuel (n / 10) ++ [Char.ofNat (48 + n % 10)]

/-- Modelled from the spec: `vtkVariant::ToString` of an `int` (VTK library,
not among the sources): the decimal digits, with a leading `-` for a negative
number. -/
def decimalRenderInt (i : Int) : String :=
  match i with
  | .ofNat n => ⟨natDigits (n + 1) n⟩
  | .negSucc n => ⟨'-' :: natDigits (n + 2) (n + 1)⟩

/-- Does the decimal number have a non-zero fractional part? -/
def Decimal.hasFraction (q : Decimal) : Bool :=
  decide (q.mantissa.natAbs % 10 ^ q.scale ≠ 0)

/-- The integer part of a decimal number (truncation towards zero). -/
def Decimal.trunc (q : Decimal) : Int :=
  if q.mantissa < 0 then - ((q.mantissa.natAbs / 10 ^ q.scale : Nat) : Int)
  else ((q.mantissa.natAbs / 10 ^ q.scale : Nat) : Int)

/-- Modelled from the spec: `vtkVariant::ToString` of a `double` (VTK library,
not among the sources): an integer is printed as such, any other value with
its digits after the point, without trailing zeros. -/
def decimalRenderDbl (q : Decimal) : String :=
  if q.hasFraction then
    let whole := q.mantissa.natAbs / 10 ^ q.scale
    let frac := q.mantissa.natAbs % 10 ^ q.scale
    let fracDigits := (natDigits (q.scale + 1) (10 ^ q.scale + frac)).drop 1
    let sign := if q.mantissa < 0 then ['-'] else []
    ⟨sign ++ natDigits (whole + 1) whole ++ ['.'] ++
      ((fracDigits.reverse.dropWhile (fun c => c = '0')).reverse)⟩
  else decimalRenderInt q.trunc

/-- Modelled from the spec: the conversions of `vtkVariant` (VTK library, not
among the sources) on plain decimal literals, with `Decimal` for `double`. -/
def decimalOps : VariantOps Decimal where
  renderInt := decimalRenderInt
  renderDbl := decimalRenderDbl
  parseDouble := decimalParseDouble
  hasFraction := Decimal.hasFraction
  parseInt := decimalParseInt
  intToDbl := fun i => ⟨i, 0⟩
  dblToInt := Decimal.trunc

/-- A column of texts. -/
def textColumn (name : String) (vals : List String) : Column Decimal :=
  { name := name, data := .strings vals }

/-- The table of the scenario of the specification. -/
def scenarioTable : Table Decimal :=
  { columns :=
      [ textColumn "id" ["1", "2", "3", "4", "5"],
        textColumn "score" ["1.5", "2.5", "3.5", "4.5", "5.5"],
        textColumn "label" ["a", "b", "a", "b", "a"] ] }

/-! ## The declarative reading of the specification -/

/-- The text rendering of cell `(row, col)`. -/
def cellText (ops : VariantOps D) (table : Table D) (col row : Nat) : String :=
  (table.GetValue row col).ToString ops

/-- Does the text of cell `(row, col)` parse as a real number? -/
def parsesAsReal (ops : VariantOps D) (table : Table D) (col row : Nat) : Bool :=
  (ops.parseDouble (cellText ops table col row)).2

/-- Does the text of cell `(row, col)` parse as a real number with a non-zero
fractional part? -/
def parsesAsFractional (ops : VariantOps D) (table : Table D) (col row : Nat) : Bool :=
  (ops.parseDouble (cellText ops table col row)).2 &&
    ops.hasFraction (ops.parseDouble (cellText ops table col row)).1

/-- The number of cells of column `col` whose text parses as a real. -/
def numNumericOf (ops : VariantOps D) (table : Table D) (col : Nat) : Nat :=
  (List.range table.GetNumberOfRows).countP (parsesAsReal ops table col)

/-- The number of cells of column `col` whose text parses as a real with a
non-zero fractional part. -/
def numFractionalOf (ops : VariantOps D) (table : Table D) (col : Nat) : Nat :=
  (List.range table.GetNumberOfRows).countP (parsesAsFractional ops table col)

/-- The five-way rule of the specification, with the thresholds as exact
rationals. -/
def fiveWayRule (numRow numNumeric numFractional numDistinct : Nat) : Int :=
  if (numNumeric : ℚ) > (95 / 100) * (numRow : ℚ) then
    (if (numFractional : ℚ) > (1 / 100) * (numRow : ℚ) then CONTINUOUS
     else if (numDistinct : ℚ) < (9 / 10) * (numRow : ℚ) then INTEGER_CATEGORY
     else INTEGER_DATA)
  else
    (if (numDistinct : ℚ) < (9 / 10) * (numRow : ℚ) then STRING_CATEGORY
     else STRING_DATA)

/-- The set of text renderings of the cells of column `col`. -/
def renderingsOf (ops : VariantOps D) (table : Table D) (col : Nat) : Finset String :=
  (Finset.range table.GetNumberOfRows).image (cellText ops table col)

/-- The relation matrix has `n` rows of `n` entries. -/
def WellSized (n : Nat) (relations : List (List Int)) : Prop :=
  relations.length = n ∧ ∀ a, a < n → (relations.getD a []).length = n

/-- The inner loop does not `break` at the pair `(col1, col2)`: the two
basic types agree and are not `2`. -/
def noBreak (types : List Int) (col1 col2 : Nat) : Prop :=
  ¬ (basicType (types.getD col1 0) ≠ basicType (types.getD col2 0) ∨
      basicType (types.getD col1 0) = 2)

/-- The domains of the two columns have more than `0.01 * numRow` strings in
common. -/
def sharesDomain (numRow : Nat) (domains : List (Finset String)) (col1 col2 : Nat) :
    Prop :=
  (((domains.getD col1 ∅ ∩ domains.getD col2 ∅).card : Nat) : ℚ) > 0.01 * (numRow : ℚ)

instance decNoBreak (types : List Int) (col1 col2 : Nat) :
    Decidable (noBreak types col1 col2) := by
  unfold noBreak; infer_instance

instance decSharesDomain (numRow : Nat) (domains : List (Finset String))
    (col1 col2 : Nat) : Decidable (sharesDomain numRow domains col1 col2) := by
  unfold sharesDomain; infer_instance

/-- The value that the inner loop writes at the pair `(col1, col2)` when it
gets there. -/
def pairValue (numRow : Nat) (domains : List (Finset String)) (types : List Int)
    (col1 col2 : Nat) : Int :=
  if noBreak types col1 col2 ∧ sharesDomain numRow domains col1 col2 then SHARED_DOMAIN
  else UNRELATED

/-- The output column for the input column of index `col`, if there is one. -/
def convertedAt (ops : VariantOps D) (table : Table D) (types : List Int) (col : Nat) :
    Option (Column D) :=
  (table.columns[col]?).map
    (fun arr => convertColumn ops table.GetNumberOfRows arr (types.getD col 0))

/-! ## Concrete tables -/

/-- A table with two columns and no rows. -/
def emptyTable : Table Decimal :=
  { columns := [textColumn "a" [], textColumn "b" []] }

/-- A table of twenty rows whose single column holds nineteen numbers, one
of them with a fractional part, and one text. -/
def boundaryTable : Table Decimal :=
  { columns :=
      [ textColumn "v"
          ["0.5", "1", "2", "3", "4", "5", "6", "7", "8", "9", "10", "11", "12",
           "13", "14", "15", "16", "17", "18", "x"] ] }

/-- Three columns of two rows: two equal text columns around a column of
fractional numbers. -/
def breakTable : Table Decimal :=
  { columns :=
      [ textColumn "a" ["x", "x"],
        textColumn "b" ["1.5", "2.5"],
        textColumn "c" ["x", "x"] ] }

/-- The columns of `breakTable` with the two text columns next to each
other. -/
def adjacentTable : Table Decimal :=
  { columns :=
      [ textColumn "a" ["x", "x"],
        textColumn "c" ["x", "x"],
        textColumn "b" ["1.5", "2.5"] ] }

theorem gt_095_iff (n r : Nat) : ((n : ℚ) > 0.95 * (r : ℚ)) ↔ 95 * r < 100 * n := by
  rw [← @Nat.cast_lt ℚ]
  push_cast
  constructor <;> intro h <;> norm_num at h ⊢ <;> linarith

theorem gt_001_iff (n r : Nat) : ((n : ℚ) > 0.01 * (r : ℚ)) ↔ r < 100 * n := by
  rw [← @Nat.cast_lt ℚ]
  push_cast
  constructor <;> intro h <;> norm_num at h ⊢ <;> linarith

theorem lt_09_iff (n r : Nat) : ((n : ℚ) < 0.9 * (r : ℚ)) ↔ 10 * n < 9 * r := by
  rw [← @Nat.cast_lt ℚ]
  push_cast
  constructor <;> intro h <;> norm_num at h ⊢ <;> linarith

/-! ## Binary64 arithmetic agrees with the exact thresholds -/

theorem ulp_pos (P : Nat) : 0 < 2 ^ (Nat.log 2 P - 52) := pow_pos (by norm_num) _

theorem ulp_le (P : Nat) :
    2 ^ (Nat.log 2 P - 52) = 1 ∨ 2 ^ (Nat.log 2 P - 52) * 2 ^ 52 ≤ P := by
  by_cases h : 52 ≤ Nat.log 2 P
  · right
    have hP : P ≠ 0 := by
      intro h0; subst h0; simp at h
    rw [← pow_add, Nat.sub_add_cancel h]
    exact Nat.pow_log_le_self 2 hP
  · left
    have : Nat.log 2 P - 52 = 0 := by omega
    rw [this, pow_zero]

theorem lt_ulp (P : Nat) : P < 2 ^ (Nat.log 2 P - 52) * 2 ^ 53 := by
  have h1 : P < 2 ^ (Nat.log 2 P + 1) := Nat.lt_pow_succ_log_self (by norm_num) P
  have h2 : 2 ^ (Nat.log 2 P + 1) ≤ 2 ^ (Nat.log 2 P - 52 + 53) :=
    Nat.pow_le_pow_right (by norm_num) (by omega)
  rw [← pow_add]
  omega

theorem ulp_dvd (P k n : Nat) (hP : P < 2 ^ (k + 52)) :
    2 ^ (Nat.log 2 P - 52) ∣ n * 2 ^ k := by
  apply Dvd.dvd.mul_left
  apply pow_dvd_pow
  by_cases h0 : P = 0
  · subst h0; simp
  · have := Nat.log_lt_of_lt_pow h0 hP
    omega

/-- The rounded number is within half a unit in the last place. -/
theorem round53_near (P : Nat) :
    2 * round53 P ≤ 2 * P + 2 ^ (Nat.log 2 P - 52) ∧
    2 * P ≤ 2 * round53 P + 2 ^ (Nat.log 2 P - 52) := by
  unfold round53
  have hu := ulp_pos P
  generalize 2 ^ (Nat.log 2 P - 52) = u at hu ⊢
  have hdm : u * (P / u) + P % u = P := Nat.div_add_mod P u
  have hrem : P % u < u := Nat.mod_lt P hu
  have e1 : (P / u + 1) * u = u * (P / u) + u := by ring
  have e2 : P / u * u = u * (P / u) := by ring
  simp only [e1, e2]
  generalize u * (P / u) = w at hdm ⊢
  generalize P % u = rem at hdm hrem ⊢
  split_ifs with h <;> omega

/-- A multiple of the unit in the last place that is less than half a unit
away is the rounded number. -/
theorem round53_grid (P X : Nat) (hdvd : 2 ^ (Nat.log 2 P - 52) ∣ X)
    (h1 : 2 * (X - P) < 2 ^ (Nat.log 2 P - 52))
    (h2 : 2 * (P - X) < 2 ^ (Nat.log 2 P - 52)) : round53 P = X := by
  unfold round53
  generalize 2 ^ (Nat.log 2 P - 52) = u at hdvd h1 h2 ⊢
  obtain ⟨t, rfl⟩ := hdvd
  have hu : 0 < u := by omega
  by_cases hle : u * t ≤ P
  · obtain ⟨e, rfl⟩ : ∃ e, P = e + u * t := ⟨P - u * t, by omega⟩
    have he : e < u := by omega
    rw [Nat.add_mul_div_left _ _ hu, Nat.add_mul_mod_self_left, Nat.div_eq_of_lt he,
      Nat.mod_eq_of_lt he]
    rw [if_neg (by omega)]
    ring
  · obtain ⟨t', rfl⟩ : ∃ t', t = t' + 1 := ⟨t - 1, by
      rcases t with _ | t
      · simp at hle
      · simp⟩
    have hexp : u * (t' + 1) = u * t' + u := by ring
    rw [hexp] at hle h1 h2 ⊢
    obtain ⟨e, he⟩ : ∃ e, P = e + u * t' := ⟨P - u * t', by omega⟩
    subst he
    have he : e < u := by omega
    rw [Nat.add_mul_div_left _ _ hu, Nat.add_mul_mod_self_left, Nat.div_eq_of_lt he,
      Nat.mod_eq_of_lt he]
    rw [if_pos (by omega)]
    ring

theorem gt095_arith (n r R u : Nat) (hr : r < 1099511627776)
    (hnear : 2 * R ≤ 2 * (8556839292003942 * r) + u ∧
      2 * (8556839292003942 * r) ≤ 2 * R + u)
    (hle : u = 1 ∨ u * 4503599627370496 ≤ 8556839292003942 * r)
    (hlt : 8556839292003942 * r < u * 9007199254740992)
    (hgrid : 2 * (n * 9007199254740992 - 8556839292003942 * r) < u →
      2 * (8556839292003942 * r - n * 9007199254740992) < u →
      R = n * 9007199254740992) :
    R < n * 9007199254740992 ↔ 95 * r < 100 * n := by
  constructor
  · intro h
    by_contra hcon
    by_cases htie : 100 * n = 95 * r
    · have h1 : 2 * (n * 9007199254740992 - 8556839292003942 * r) < u := by
        clear hgrid; omega
      have h2 : 2 * (8556839292003942 * r - n * 9007199254740992) < u := by
        clear hgrid; omega
      have h3 := hgrid h1 h2
      clear hgrid
      omega
    · clear hgrid; omega
  · intro h
    clear hgrid
    omega

theorem gt001_arith (n r R u : Nat) (hr : r < 1099511627776)
    (hnear : 2 * R ≤ 2 * (5764607523034235 * r) + u ∧
      2 * (5764607523034235 * r) ≤ 2 * R + u)
    (hle : u = 1 ∨ u * 4503599627370496 ≤ 5764607523034235 * r)
    (hlt : 5764607523034235 * r < u * 9007199254740992)
    (hgrid : 2 * (n * 576460752303423488 - 5764607523034235 * r) < u →
      2 * (5764607523034235 * r - n * 576460752303423488) < u →
      R = n * 576460752303423488) :
    R < n * 576460752303423488 ↔ r < 100 * n := by
  constructor
  · intro h
    by_contra hcon
    by_cases htie : 100 * n = r
    · have h1 : 2 * (n * 576460752303423488 - 5764607523034235 * r) < u := by
        clear hgrid; omega
      have h2 : 2 * (5764607523034235 * r - n * 576460752303423488) < u := by
        clear hgrid; omega
      have h3 := hgrid h1 h2
      clear hgrid
      omega
    · clear hgrid; omega
  · intro h
    clear hgrid
    omega

theorem lt09_arith (n r R u : Nat) (hr : r < 1099511627776)
    (hnear : 2 * R ≤ 2 * (8106479329266893 * r) + u ∧
      2 * (8106479329266893 * r) ≤ 2 * R + u)
    (hle : u = 1 ∨ u * 4503599627370496 ≤ 8106479329266893 * r)
    (hlt : 8106479329266893 * r < u * 9007199254740992)
    (hgrid : 2 * (n * 9007199254740992 - 8106479329266893 * r) < u →
      2 * (8106479329266893 * r - n * 9007199254740992) < u →
      R = n * 9007199254740992) :
    n * 9007199254740992 < R ↔ 10 * n < 9 * r := by
  constructor
  · intro h
    by_contra hcon
    by_cases htie : 10 * n = 9 * r
    · have h1 : 2 * (n * 9007199254740992 - 8106479329266893 * r) < u := by
        clear hgrid; omega
      have h2 : 2 * (8106479329266893 * r - n * 9007199254740992) < u := by
        clear hgrid; omega
      have h3 := hgrid h1 h2
      clear hgrid
      omega
    · clear hgrid; omega
  · intro h
    clear hgrid
    omega

/-- For fewer than `2 ^ 40` rows the test `n > 0.95 * numRow` has the same
outcome in binary64 as over the rationals. -/
theorem gt095Binary64_iff (n numRow : Nat) (hr : numRow < 2 ^ 40) :
    gt095Binary64 n numRow ↔ (n : ℚ) > 0.95 * (numRow : ℚ) := by
  rw [gt_095_iff]
  unfold gt095Binary64
  have e40 : (2 : Nat) ^ 40 = 1099511627776 := by norm_num
  have e52 : (2 : Nat) ^ 52 = 4503599627370496 := by norm_num
  have e53 : (2 : Nat) ^ 53 = 9007199254740992 := by norm_num
  have e105 : (2 : Nat) ^ (53 + 52) = 40564819207303340847894502572032 := by norm_num
  rw [e40] at hr
  have hP : sig095 * numRow < 2 ^ (53 + 52) := by
    rw [e105]; unfold sig095; omega
  have hnear := round53_near (sig095 * numRow)
  have hle := ulp_le (sig095 * numRow)
  have hlt := lt_ulp (sig095 * numRow)
  have hgrid := round53_grid (sig095 * numRow) (n * 2 ^ 53) (ulp_dvd _ 53 n hP)
  rw [e52] at hle
  rw [e53] at hlt hgrid ⊢
  exact gt095_arith n numRow _ _ hr hnear hle hlt hgrid

/-- For fewer than `2 ^ 40` rows the test `n > 0.01 * numRow` has the same
outcome in binary64 as over the rationals. -/
theorem gt001Binary64_iff (n numRow : Nat) (hr : numRow < 2 ^ 40) :
    gt001Binary64 n numRow ↔ (n : ℚ) > 0.01 * (numRow : ℚ) := by
  rw [gt_001_iff]
  unfold gt001Binary64
  have e40 : (2 : Nat) ^ 40 = 1099511627776 := by norm_num
  have e52 : (2 : Nat) ^ 52 = 4503599627370496 := by norm_num
  have e53 : (2 : Nat) ^ 53 = 9007199254740992 := by norm_num
  have e59 : (2 : Nat) ^ 59 = 576460752303423488 := by norm_num
  have e111 : (2 : Nat) ^ (59 + 52) = 2596148429267413814265248164610048 := by norm_num
  rw [e40] at hr
  have hP : sig001 * numRow < 2 ^ (59 + 52) := by
    rw [e111]; unfold sig001; omega
  have hnear := round53_near (sig001 * numRow)
  have hle := ulp_le (sig001 * numRow)
  have hlt := lt_ulp (sig001 * numRow)
  have hgrid := round53_grid (sig001 * numRow) (n * 2 ^ 59) (ulp_dvd _ 59 n hP)
  rw [e52] at hle
  rw [e53] at hlt
  rw [e59] at hgrid ⊢
  exact gt001_arith n numRow _ _ hr hnear hle hlt hgrid

/-- For fewer than `2 ^ 40` rows the test `n < 0.9 * numRow` has the same
outcome in binary64 as over the rationals. -/
theorem lt09Binary64_iff (n numRow : Nat) (hr : numRow < 2 ^ 40) :
    lt09Binary64 n numRow ↔ (n : ℚ) < 0.9 * (numRow : ℚ) := by
  rw [lt_09_iff]
  unfold lt09Binary64
  have e40 : (2 : Nat) ^ 40 = 1099511627776 := by norm_num
  have e52 : (2 : Nat) ^ 52 = 4503599627370496 := by norm_num
  have e53 : (2 : Nat) ^ 53 = 9007199254740992 := by norm_num
  have e105 : (2 : Nat) ^ (53 + 52) = 40564819207303340847894502572032 := by norm_num
  rw [e40] at hr
  have hP : sig09 * numRow < 2 ^ (53 + 52) := by
    rw [e105]; unfold sig09; omega
  have hnear := round53_near (sig09 * numRow)
  have hle := ulp_le (sig09 * numRow)
  have hlt := lt_ulp (sig09 * numRow)
  have hgrid := round53_grid (sig09 * numRow) (n * 2 ^ 53) (ulp_dvd _ 53 n hP)
  rw [e52] at hle
  rw [e53] at hlt hgrid ⊢
  exact lt09_arith n numRow _ _ hr hnear hle hlt hgrid

/-- For fewer than `2 ^ 40` rows the decision of `columnTypes` is the same
with the tests evaluated in binary64 as with the exact thresholds. -/
theorem chooseTypeBinary64_eq (numRow numFractional numNumeric numDistinct : Nat)
    (hr : numRow < 2 ^ 40) :
    chooseTypeBinary64 numRow numFractional numNumeric numDistinct =
      chooseType numRow numFractional numNumeric numDistinct := by
  unfold chooseTypeBinary64 chooseType
  simp only [gt095Binary64_iff _ _ hr, gt001Binary64_iff _ _ hr, lt09Binary64_iff _ _ hr]

/-- For fewer than `2 ^ 40` rows the test `numShared > 0.01 * numRow` of
`columnRelations` has the same outcome in binary64 as over the rationals. -/
theorem sharesDomain_binary64 (numRow : Nat) (domains : List (Finset String))
    (col1 col2 : Nat) (hr : numRow < 2 ^ 40) :
    gt001Binary64 (domains.getD col1 ∅ ∩ domains.getD col2 ∅).card numRow ↔
      sharesDomain numRow domains col1 col2 :=
  gt001Binary64_iff _ numRow hr

/-! ## Vectors filled by a loop over their indices -/

theorem foldl_set_length {α : Type} (f : Nat → α) (k : Nat) (l : List α) :
    ((List.range k).foldl (fun acc i => acc.set i (f i)) l).length = l.length := by
  induction k with
  | zero => simp
  | succ k ih => rw [List.range_succ, List.foldl_append]; simp [ih]

theorem foldl_set_lookup {α : Type} (f : Nat → α) (k : Nat) (l : List α) (i : Nat) :
    ((List.range k).foldl (fun acc i => acc.set i (f i)) l)[i]? =
      if i < k ∧ i < l.length then some (f i) else l[i]? := by
  induction k with
  | zero => simp
  | succ k ih =>
    rw [List.range_succ, List.foldl_append]
    simp only [List.foldl_cons, List.foldl_nil]
    rw [List.getElem?_set, foldl_set_length, ih]
    by_cases hki : k = i
    · subst hki
      by_cases hk : k < l.length
      · simp [hk]
      · have : l[k]? = none := List.getElem?_eq_none (by omega)
        simp [hk, this]
    · by_cases hik : i < k
      · have : i < k + 1 := by omega
        simp [hki, hik, this]
      · have : ¬ i < k + 1 := by omega
        simp [hki, hik, this]

/-- A vector of size `n` whose entries are assigned in index order holds the
assigned values. -/
theorem foldl_set_range {α : Type} (f : Nat → α) (d : α) (n : Nat) :
    (List.range n).foldl (fun acc i => acc.set i (f i)) (List.replicate n d) =
      (List.range n).map f := by
  apply List.ext_getElem?
  intro i
  rw [foldl_set_lookup]
  by_cases hi : i < n
  · simp [hi, List.getElem?_range hi]
  · have h1 : ((List.range n).map f)[i]? = none :=
      List.getElem?_eq_none (by simp; omega)
    have h2 : (List.replicate n d)[i]? = none :=
      List.getElem?_eq_none (by simp; omega)
    simp [hi, h1, h2]

/-! ## `columnTypes` -/

theorem countCell_step (ops : VariantOps D) (table : Table D) (col : Nat)
    (a b row : Nat) :
    countCell ops table col (a, b) row =
      (a + (if parsesAsFractional ops table col row = true then 1 else 0),
       b + (if parsesAsReal ops table col row = true then 1 else 0)) := by
  unfold countCell parsesAsFractional parsesAsReal cellText
  by_cases hp : (ops.parseDouble ((table.GetValue row col).ToString ops)).2 = true
  · by_cases hf :
      ops.hasFraction (ops.parseDouble ((table.GetValue row col).ToString ops)).1 = true
    · simp [hp, hf]
    · simp [hp, hf]
  · simp [hp]

theorem countCell_foldl (ops : VariantOps D) (table : Table D) (col : Nat)
    (rows : List Nat) (a b : Nat) :
    rows.foldl (countCell ops table col) (a, b) =
      (a + rows.countP (parsesAsFractional ops table col),
       b + rows.countP (parsesAsReal ops table col)) := by
  induction rows generalizing a b with
  | nil => simp
  | cons r rs ih =>
    rw [List.foldl_cons, countCell_step, ih, List.countP_cons, List.countP_cons]
    ext <;> simp <;> omega

theorem chooseType_eq_fiveWayRule (numRow numFractional numNumeric numDistinct : Nat) :
    chooseType numRow numFractional numNumeric numDistinct =
      fiveWayRule numRow numNumeric numFractional numDistinct := by
  have h95 : (0.95 : ℚ) = 95 / 100 := by norm_num
  have h01 : (0.01 : ℚ) = 1 / 100 := by norm_num
  have h09 : (0.9 : ℚ) = 9 / 10 := by norm_num
  unfold chooseType fiveWayRule
  by_cases h1 : (numNumeric : ℚ) > 0.95 * (numRow : ℚ) <;>
  by_cases h2 : (numFractional : ℚ) > 0.01 * (numRow : ℚ) <;>
  by_cases h3 : (numDistinct : ℚ) < 0.9 * (numRow : ℚ) <;>
  simp only [h1, h2, h3, if_true, if_false] <;>
  rw [h95] at h1 <;> rw [h01] at h2 <;> rw [h09] at h3 <;>
  simp only [h1, h2, h3, if_true, if_false]

/-- The loop of `columnTypes` computes, for every column, `chooseType` of
the row count, the two counters and the size of the column's domain. -/
theorem columnTypes_eq_map (ops : VariantOps D) (table : Table D)
    (domains : List (Finset String)) :
    columnTypes ops table domains =
      (List.range table.GetNumberOfColumns).map (fun col =>
        chooseType table.GetNumberOfRows (numFractionalOf ops table col)
          (numNumericOf ops table col) (domains.getD col ∅).card) := by
  unfold columnTypes
  simp only [countCell_foldl, Nat.zero_add]
  exact foldl_set_range _ _ _

theorem insert_foldl_mem (g : Nat → String) (rows : List Nat) (init : Finset String)
    (s : String) :
    s ∈ rows.foldl (fun distinct row => insert (g row) distinct) init ↔
      s ∈ init ∨ ∃ r ∈ rows, g r = s := by
  induction rows generalizing init with
  | nil => simp
  | cons r rs ih =>
    rw [List.foldl_cons, ih]
    simp only [Finset.mem_insert, List.mem_cons]
    constructor
    · rintro ((h | h) | ⟨r', hr', h⟩)
      · exact Or.inr ⟨r, Or.inl rfl, h.symm⟩
      · exact Or.inl h
      · exact Or.inr ⟨r', Or.inr hr', h⟩
    · rintro (h | ⟨r', hr' | hr', h⟩)
      · exact Or.inl (Or.inr h)
      · subst hr'; exact Or.inl (Or.inl h.symm)
      · exact Or.inr ⟨r', hr', h⟩

theorem insert_foldl_range (g : Nat → String) (n : Nat) :
    (List.range n).foldl (fun distinct row => insert (g row) distinct) ∅ =
      (Finset.range n).image g := by
  ext s
  rw [insert_foldl_mem]
  simp

/-- The loop of `columnDomains` computes, for every column, the set of the
text renderings of its cells. -/
theorem columnDomains_eq_map (ops : VariantOps D) (table : Table D) :
    columnDomains ops table =
      (List.range table.GetNumberOfColumns).map (renderingsOf ops table) := by
  unfold columnDomains
  simp only [insert_foldl_range]
  exact foldl_set_range _ _ _

theorem columnDomains_length (ops : VariantOps D) (table : Table D) :
    (columnDomains ops table).length = table.GetNumberOfColumns := by
  rw [columnDomains_eq_map]; simp

theorem columnDomains_getD (ops : VariantOps D) (table : Table D) (c : Nat) :
    (columnDomains ops table).getD c ∅ =
      if c < table.GetNumberOfColumns then renderingsOf ops table c else ∅ := by
  rw [columnDomains_eq_map, List.getD_eq_getElem?_getD, List.getElem?_map]
  by_cases hc : c < table.GetNumberOfColumns
  · simp [hc, List.getElem?_range hc]
  · have : (List.range table.GetNumberOfColumns)[c]? = none :=
      List.getElem?_eq_none (by simp; omega)
    simp [hc, this]

/-- C9: `columnDomains` returns one set per column, and a string is in the
set of column `c` exactly when some row has a cell in column `c` whose text
rendering is that string. -/
theorem columnDomains_spec (ops : VariantOps D) (table : Table D) :
    (columnDomains ops table).length = table.GetNumberOfColumns ∧
    ∀ (c : Nat) (s : String),
      s ∈ (columnDomains ops table).getD c ∅ ↔
        (c < table.GetNumberOfColumns ∧
          ∃ r, r < table.GetNumberOfRows ∧ (table.GetValue r c).ToString ops = s) := by
  refine ⟨columnDomains_length ops table, ?_⟩
  intro c s
  rw [columnDomains_getD]
  by_cases hc : c < table.GetNumberOfColumns
  · simp [hc, renderingsOf, cellText]
  · simp [hc]

/-! ## Tables without rows -/

theorem chooseType_zero_rows : chooseType 0 0 0 0 = STRING_DATA := by decide

/-- C2: on a table with zero rows, with the domains computed by
`columnDomains`, `columnTypes` classifies every column as `STRING_DATA`. -/
theorem columnTypes_zero_rows (ops : VariantOps D) (table : Table D)
    (h : table.GetNumberOfRows = 0) :
    columnTypes ops table (columnDomains ops table) =
      List.replicate table.GetNumberOfColumns STRING_DATA := by
  rw [columnTypes_eq_map]
  apply List.ext_getElem?
  intro c
  rw [List.getElem?_map, List.getElem?_replicate]
  by_cases hc : c < table.GetNumberOfColumns
  · rw [List.getElem?_range hc, if_pos hc]
    simp only [Option.map_some']
    rw [columnDomains_getD, if_pos hc]
    simp [numFractionalOf, numNumericOf, renderingsOf, h, chooseType_zero_rows]
  · have : (List.range table.GetNumberOfColumns)[c]? = none :=
      List.getElem?_eq_none (by simp; omega)
    simp [hc, this]

/-- C2 (witness): `emptyTable`, two columns and no rows. -/
theorem columnTypes_zero_rows_witness :
    emptyTable.GetNumberOfRows = 0 ∧
    columnTypes decimalOps emptyTable (columnDomains decimalOps emptyTable) =
      List.replicate emptyTable.GetNumberOfColumns STRING_DATA :=
  ⟨by decide, columnTypes_zero_rows decimalOps emptyTable (by decide)⟩

/-! ## Single columns -/

theorem columnTypes_lookup (ops : VariantOps D) (table : Table D)
    (domains : List (Finset String)) (c : Nat) (hc : c < table.GetNumberOfColumns) :
    (columnTypes ops table domains)[c]? =
      some (chooseType table.GetNumberOfRows (numFractionalOf ops table c)
        (numNumericOf ops table c) (domains.getD c ∅).card) := by
  rw [columnTypes_eq_map, List.getElem?_map, List.getElem?_range hc]
  rfl

/-- C3 (amended): a column in which the cells with a non-zero fractional
part are more than 1% of the rows and the cells that parse as numbers are
more than 95% of the rows is classified `CONTINUOUS`. -/
theorem columnTypes_continuous (ops : VariantOps D) (table : Table D)
    (domains : List (Finset String)) (c : Nat) (hc : c < table.GetNumberOfColumns)
    (hfrac : (numFractionalOf ops table c : ℚ) > (1 / 100) * (table.GetNumberOfRows : ℚ))
    (hnum : (numNumericOf ops table c : ℚ) > (95 / 100) * (table.GetNumberOfRows : ℚ)) :
    (columnTypes ops table domains)[c]? = some CONTINUOUS := by
  rw [columnTypes_lookup ops table domains c hc, chooseType_eq_fiveWayRule]
  unfold fiveWayRule
  rw [if_pos hnum, if_pos hfrac]

/-- C3 (witness): the column `score` of the scenario table. -/
theorem columnTypes_continuous_witness :
    (1 < scenarioTable.GetNumberOfColumns ∧
      (numFractionalOf decimalOps scenarioTable 1 : ℚ) >
        (1 / 100) * (scenarioTable.GetNumberOfRows : ℚ) ∧
      (numNumericOf decimalOps scenarioTable 1 : ℚ) >
        (95 / 100) * (scenarioTable.GetNumberOfRows : ℚ)) ∧
    (columnTypes decimalOps scenarioTable
      (columnDomains decimalOps scenarioTable))[1]? = some CONTINUOUS :=
  have h1 : numFractionalOf decimalOps scenarioTable 1 = 5 := by decide
  have h2 : numNumericOf decimalOps scenarioTable 1 = 5 := by decide
  have h3 : scenarioTable.GetNumberOfRows = 5 := by decide
  ⟨⟨by decide, by rw [h1, h3]; norm_num, by rw [h2, h3]; norm_num⟩,
    columnTypes_continuous decimalOps scenarioTable _ 1 (by decide)
      (by rw [h1, h3]; norm_num) (by rw [h2, h3]; norm_num)⟩

/-- C3 (counterexample): in `boundaryTable` one cell of twenty has a
fractional part (more than 1% of the rows) and nineteen of twenty parse as
numbers (exactly 95% of the rows), and the column is classified
`STRING_DATA`, not `CONTINUOUS`; the test `19 > 0.95 * 20` fails in binary64
arithmetic as well. -/
theorem columnTypes_boundary_not_continuous :
    0 < boundaryTable.GetNumberOfColumns ∧
    (numFractionalOf decimalOps boundaryTable 0 : ℚ) >
      (1 / 100) * (boundaryTable.GetNumberOfRows : ℚ) ∧
    (numNumericOf decimalOps boundaryTable 0 : ℚ) ≥
      (95 / 100) * (boundaryTable.GetNumberOfRows : ℚ) ∧
    (columnTypes decimalOps boundaryTable
      (columnDomains decimalOps boundaryTable))[0]? = some STRING_DATA ∧
    (columnTypes decimalOps boundaryTable
      (columnDomains decimalOps boundaryTable))[0]? ≠ some CONTINUOUS ∧
    ¬ gt095Binary64 (numNumericOf decimalOps boundaryTable 0)
      boundaryTable.GetNumberOfRows := by
  have h1 : numFractionalOf decimalOps boundaryTable 0 = 1 := by decide
  have h2 : numNumericOf decimalOps boundaryTable 0 = 19 := by decide
  have h3 : boundaryTable.GetNumberOfRows = 20 := by decide
  refine ⟨by decide, ?_, ?_, by decide, by decide, ?_⟩
  · rw [h1, h3]; norm_num
  · rw [h2, h3]; norm_num
  · rw [h2, h3, gt095Binary64_iff 19 20 (by norm_num), gt_095_iff]
    omega

theorem relationAt_setRelation (rel : List (List Int)) (i j : Nat) (v : Int) (a b : Nat) :
    relationAt (setRelation rel i j v) a b =
      if a = i ∧ b = j ∧ i < rel.length ∧ j < (rel.getD i []).length then v
      else relationAt rel a b := by
  unfold relationAt setRelation
  simp only [List.getD_eq_getElem?_getD, List.getElem?_set]
  by_cases hai : i = a
  · subst hai
    by_cases hi : i < rel.length
    · obtain ⟨row, hrow⟩ : ∃ row, rel[i]? = some row :=
        ⟨rel[i], List.getElem?_eq_getElem hi⟩
      simp only [hrow, Option.getD_some, hi, if_true, true_and, List.getElem?_set]
      by_cases hbj : j = b
      · subst hbj
        by_cases hj : j < row.length
        · simp [hj]
        · have : row[j]? = none := List.getElem?_eq_none (by omega)
          simp [hj, this]
      · have hbj' : ¬ b = j := fun h => hbj h.symm
        simp [hbj, hbj']
    · have : rel[i]? = none := List.getElem?_eq_none (by omega)
      simp [hi, this]
  · have hai' : ¬ a = i := fun h => hai h.symm
    simp [hai, hai']

theorem wellSized_setRelation (n : Nat) (rel : List (List Int)) (i j : Nat) (v : Int)
    (h : WellSized n rel) : WellSized n (setRelation rel i j v) := by
  obtain ⟨h1, h2⟩ := h
  refine ⟨by simp [setRelation, h1], ?_⟩
  intro a ha
  have h2a := h2 a ha
  unfold setRelation
  simp only [List.getD_eq_getElem?_getD, List.getElem?_set] at h2a ⊢
  by_cases hai : i = a
  · subst hai
    have hi : i < rel.length := by omega
    obtain ⟨row, hrow⟩ : ∃ row, rel[i]? = some row :=
      ⟨rel[i], List.getElem?_eq_getElem hi⟩
    rw [hrow] at h2a
    simp only [Option.getD_some] at h2a
    simp [hi, hrow, h2a]
  · simp [hai, h2a]

theorem wellSized_replicate (n : Nat) :
    WellSized n (List.replicate n (List.replicate n 0)) := by
  refine ⟨by simp, ?_⟩
  intro a ha
  simp [List.getD_eq_getElem?_getD, List.getElem?_replicate, ha]

theorem relationAt_replicate (n a b : Nat) :
    relationAt (List.replicate n (List.replicate n 0)) a b = 0 := by
  unfold relationAt
  simp only [List.getD_eq_getElem?_getD, List.getElem?_replicate]
  by_cases ha : a < n
  · by_cases hb : b < n
    · simp [ha, hb]
    · simp [ha, hb]
  · simp [ha]

theorem relateFrom_cons (numRow : Nat) (domains : List (Finset String))
    (types : List Int) (col1 col2 : Nat) (rest : List Nat) (rel : List (List Int)) :
    relateFrom numRow domains types col1 (col2 :: rest) rel =
      if noBreak types col1 col2 then
        relateFrom numRow domains types col1 rest
          (setRelation rel col1 col2 (pairValue numRow domains types col1 col2))
      else setRelation rel col1 col2 (pairValue numRow domains types col1 col2) := by
  rw [relateFrom]
  unfold pairValue
  by_cases hb : noBreak types col1 col2
  · have hb' := hb
    unfold noBreak at hb'
    by_cases hs : sharesDomain numRow domains col1 col2
    · have hs' := hs
      unfold sharesDomain at hs'
      simp only [hb, hb', hs, hs', if_true, if_false, and_self]
    · have hs' := hs
      unfold sharesDomain at hs'
      simp only [hb, hb', hs, hs', if_true, if_false, and_false]
  · have hb' := hb
    unfold noBreak at hb'
    rw [not_not] at hb'
    simp only [hb, hb', if_true, if_false, false_and]

/-- The inner loop over `col2 = s, ..., s + n - 1`: the matrix keeps its size,
and the entries that change are those of row `col1` up to and including the
first pair at which the loop breaks. -/
theorem relateFrom_spec (numRow : Nat) (domains : List (Finset String))
    (types : List Int) (col1 numCol : Nat) (hcol1 : col1 < numCol) :
    ∀ (n s : Nat) (rel : List (List Int)), WellSized numCol rel → s + n ≤ numCol →
      WellSized numCol (relateFrom numRow domains types col1 (List.range' s n) rel) ∧
      ∀ a b,
        ((a = col1 ∧ s ≤ b ∧ b < s + n ∧ ∀ k, s ≤ k → k < b → noBreak types col1 k) →
          relationAt (relateFrom numRow domains types col1 (List.range' s n) rel) a b =
            pairValue numRow domains types col1 b) ∧
        (¬ (a = col1 ∧ s ≤ b ∧ b < s + n ∧ ∀ k, s ≤ k → k < b → noBreak types col1 k) →
          relationAt (relateFrom numRow domains types col1 (List.range' s n) rel) a b =
            relationAt rel a b) := by
  intro n
  induction n with
  | zero =>
    intro s rel hw _
    refine ⟨by simpa [relateFrom] using hw, ?_⟩
    intro a b
    refine ⟨?_, ?_⟩
    · rintro ⟨_, h1, h2, _⟩; omega
    · intro _; simp [relateFrom]
  | succ n ih =>
    intro s rel hw hs
    rw [List.range'_succ, relateFrom_cons]
    have hw' := wellSized_setRelation numCol rel col1 s
      (pairValue numRow domains types col1 s) hw
    have hset : ∀ a b, relationAt (setRelation rel col1 s
        (pairValue numRow domains types col1 s)) a b =
        if a = col1 ∧ b = s then pairValue numRow domains types col1 s
        else relationAt rel a b := by
      intro a b
      rw [relationAt_setRelation]
      have h1 : col1 < rel.length := by rw [hw.1]; exact hcol1
      have h2 : s < (rel.getD col1 []).length := by rw [hw.2 col1 hcol1]; omega
      by_cases h : a = col1 ∧ b = s
      · rw [if_pos ⟨h.1, h.2, h1, h2⟩, if_pos h]
      · rw [if_neg (fun hh => h ⟨hh.1, hh.2.1⟩), if_neg h]
    by_cases hb : noBreak types col1 s
    · rw [if_pos hb]
      obtain ⟨ihw, ihe⟩ := ih (s + 1) _ hw' (by omega)
      refine ⟨ihw, ?_⟩
      intro a b
      obtain ⟨ihe1, ihe2⟩ := ihe a b
      refine ⟨?_, ?_⟩
      · rintro ⟨ha, hsb, hbn, hall⟩
        by_cases hbs : b = s
        · subst hbs
          rw [ihe2 (by rintro ⟨_, h, _⟩; omega), hset]
          simp [ha]
        · apply ihe1
          exact ⟨ha, by omega, by omega, fun k hk1 hk2 => hall k (by omega) hk2⟩
      · intro hneg
        have hneg' : ¬ (a = col1 ∧ s + 1 ≤ b ∧ b < s + 1 + n ∧
            ∀ k, s + 1 ≤ k → k < b → noBreak types col1 k) := by
          rintro ⟨ha, hsb, hbn, hall⟩
          apply hneg
          refine ⟨ha, by omega, by omega, ?_⟩
          intro k hk1 hk2
          by_cases hks : k = s
          · subst hks; exact hb
          · exact hall k (by omega) hk2
        rw [ihe2 hneg', hset]
        have : ¬ (a = col1 ∧ b = s) := by
          rintro ⟨ha, hbs⟩
          apply hneg
          exact ⟨ha, by omega, by omega, fun k hk1 hk2 => by omega⟩
        rw [if_neg this]
    · rw [if_neg hb]
      refine ⟨hw', ?_⟩
      intro a b
      refine ⟨?_, ?_⟩
      · rintro ⟨ha, hsb, hbn, hall⟩
        have hbs : b = s := by
          by_contra hne
          exact hb (hall s (le_refl s) (by omega))
        rw [hset, if_pos ⟨ha, hbs⟩, hbs]
      · intro hneg
        rw [hset]
        have : ¬ (a = col1 ∧ b = s) := by
          rintro ⟨ha, hbs⟩
          apply hneg
          exact ⟨ha, by omega, by omega, fun k hk1 hk2 => by omega⟩
        rw [if_neg this]

/-- The outer loop after the columns `col1 = 0, ..., m - 1`. -/
theorem relateRows_spec (numRow : Nat) (domains : List (Finset String))
    (types : List Int) (numCol : Nat) :
    ∀ m, m ≤ numCol →
      WellSized numCol ((List.range m).foldl
        (fun relations col1 =>
          relateFrom numRow domains types col1
            (List.range' (col1 + 1) (numCol - (col1 + 1))) relations)
        (List.replicate numCol (List.replicate numCol 0))) ∧
      ∀ a b,
        ((a < m ∧ a < b ∧ b < numCol ∧ ∀ k, a < k → k < b → noBreak types a k) →
          relationAt ((List.range m).foldl
            (fun relations col1 =>
              relateFrom numRow domains types col1
                (List.range' (col1 + 1) (numCol - (col1 + 1))) relations)
            (List.replicate numCol (List.replicate numCol 0))) a b =
            pairValue numRow domains types a b) ∧
        (¬ (a < m ∧ a < b ∧ b < numCol ∧ ∀ k, a < k → k < b → noBreak types a k) →
          relationAt ((List.range m).foldl
            (fun relations col1 =>
              relateFrom numRow domains types col1
                (List.range' (col1 + 1) (numCol - (col1 + 1))) relations)
            (List.replicate numCol (List.replicate numCol 0))) a b = 0) := by
  intro m
  induction m with
  | zero =>
    intro _
    refine ⟨by simpa using wellSized_replicate numCol, ?_⟩
    intro a b
    refine ⟨?_, ?_⟩
    · rintro ⟨h, _⟩; omega
    · intro _; simpa using relationAt_replicate numCol a b
  | succ m ih =>
    intro hm
    obtain ⟨ihw, ihe⟩ := ih (by omega)
    rw [List.range_succ, List.foldl_append]
    simp only [List.foldl_cons, List.foldl_nil]
    obtain ⟨hw, he⟩ := relateFrom_spec numRow domains types m numCol (by omega)
      (numCol - (m + 1)) (m + 1) _ ihw (by omega)
    refine ⟨hw, ?_⟩
    intro a b
    obtain ⟨he1, he2⟩ := he a b
    obtain ⟨ih1, ih2⟩ := ihe a b
    by_cases ham : a = m
    · subst ham
      refine ⟨?_, ?_⟩
      · rintro ⟨_, hab, hb, hall⟩
        exact he1 ⟨rfl, by omega, by omega, fun k hk1 hk2 => hall k (by omega) hk2⟩
      · intro hneg
        rw [he2, ih2]
        · rintro ⟨h, _⟩; omega
        · rintro ⟨_, hab, hb, hall⟩
          exact hneg ⟨by omega, by omega, by omega, fun k hk1 hk2 => hall k (by omega) hk2⟩
    · have hskip : ¬ (a = m ∧ m + 1 ≤ b ∧ b < m + 1 + (numCol - (m + 1)) ∧
          ∀ k, m + 1 ≤ k → k < b → noBreak types m k) := fun h => ham h.1
      rw [he2 hskip]
      refine ⟨?_, ?_⟩
      · rintro ⟨ha, hab, hb, hall⟩
        exact ih1 ⟨by omega, hab, hb, hall⟩
      · intro hneg
        apply ih2
        rintro ⟨ha, hab, hb, hall⟩
        exact hneg ⟨by omega, hab, hb, hall⟩

/-- The entries of the result of `columnRelations`: the pair `(a, b)` with
`a < b` is written with its pair value when the inner loop of `a` reaches `b`,
and every other entry keeps the initial `0`. -/
theorem relationAt_columnRelations (table : Table D) (domains : List (Finset String))
    (types : List Int) (a b : Nat) :
    ((a < b ∧ b < table.GetNumberOfColumns ∧ ∀ k, a < k → k < b → noBreak types a k) →
      relationAt (columnRelations table domains types) a b =
        pairValue table.GetNumberOfRows domains types a b) ∧
    (¬ (a < b ∧ b < table.GetNumberOfColumns ∧ ∀ k, a < k → k < b → noBreak types a k) →
      relationAt (columnRelations table domains types) a b = 0) := by
  obtain ⟨_, he⟩ := relateRows_spec table.GetNumberOfRows domains types
    table.GetNumberOfColumns table.GetNumberOfColumns (le_refl _)
  obtain ⟨h1, h2⟩ := he a b
  unfold columnRelations
  refine ⟨?_, ?_⟩
  · rintro ⟨hab, hb, hall⟩
    exact h1 ⟨by omega, hab, hb, hall⟩
  · intro hneg
    apply h2
    rintro ⟨_, hab, hb, hall⟩
    exact hneg ⟨hab, hb, hall⟩

theorem noBreak_iff (types : List Int) (col1 col2 : Nat) :
    noBreak types col1 col2 ↔
      basicType (types.getD col2 0) = basicType (types.getD col1 0) ∧
        basicType (types.getD col1 0) ≠ 2 := by
  unfold noBreak
  constructor
  · intro h
    constructor
    · by_contra hne
      exact h (Or.inl (fun heq => hne heq.symm))
    · intro h2
      exact h (Or.inr h2)
  · rintro ⟨h1, h2⟩ (h | h)
    · exact h h1.symm
    · exact h2 h

theorem pairValue_eq_shared_iff (numRow : Nat) (domains : List (Finset String))
    (types : List Int) (i j : Nat) :
    pairValue numRow domains types i j = SHARED_DOMAIN ↔
      noBreak types i j ∧ sharesDomain numRow domains i j := by
  unfold pairValue
  by_cases h : noBreak types i j ∧ sharesDomain numRow domains i j
  · simp [h]
  · rw [if_neg h]
    constructor
    · intro h'; exact absurd h' (by decide)
    · intro h'; exact absurd h' h

/-- C6: when column `i` or column `j` has type `CONTINUOUS`, neither
`relations[i][j]` nor `relations[j][i]` is `SHARED_DOMAIN` in the result of
`columnRelations`, whatever the domains; this holds for all indices, in
particular for every pair of distinct columns. -/
theorem columnRelations_continuous_never_shared (table : Table D)
    (domains : List (Finset String)) (types : List Int) (i j : Nat)
    (hcont : types.getD i 0 = CONTINUOUS ∨ types.getD j 0 = CONTINUOUS) :
    relationAt (columnRelations table domains types) i j ≠ SHARED_DOMAIN ∧
    relationAt (columnRelations table domains types) j i ≠ SHARED_DOMAIN := by
  have hbt : basicType CONTINUOUS = 2 := by decide
  have key : ∀ a b, (types.getD a 0 = CONTINUOUS ∨ types.getD b 0 = CONTINUOUS) →
      relationAt (columnRelations table domains types) a b ≠ SHARED_DOMAIN := by
    intro a b hc
    obtain ⟨h1, h2⟩ := relationAt_columnRelations table domains types a b
    by_cases hreach : a < b ∧ b < table.GetNumberOfColumns ∧
        ∀ k, a < k → k < b → noBreak types a k
    · rw [h1 hreach, Ne, pairValue_eq_shared_iff]
      rintro ⟨hnb, _⟩
      obtain ⟨hsame, hne⟩ := (noBreak_iff types a b).mp hnb
      rcases hc with hc | hc
      · rw [hc, hbt] at hne; exact hne rfl
      · rw [hc, hbt] at hsame; exact hne hsame.symm
    · rw [h2 hreach]; decide
  exact ⟨key i j hcont, key j i (Or.symm hcont)⟩

/-- C6 (witness): the columns `0` and `1` of `breakTable` with its classified
types; column `1` is `CONTINUOUS`. -/
theorem columnRelations_continuous_never_shared_witness :
    ((0 : Nat) ≠ 1 ∧ 0 < breakTable.GetNumberOfColumns ∧
      1 < breakTable.GetNumberOfColumns) ∧
    ((columnTypes decimalOps breakTable (columnDomains decimalOps breakTable)).getD 0 0 =
        CONTINUOUS ∨
      (columnTypes decimalOps breakTable (columnDomains decimalOps breakTable)).getD 1 0 =
        CONTINUOUS) ∧
    relationAt (columnRelations breakTable (columnDomains decimalOps breakTable)
      (columnTypes decimalOps breakTable (columnDomains decimalOps breakTable))) 0 1 ≠
        SHARED_DOMAIN ∧
    relationAt (columnRelations breakTable (columnDomains decimalOps breakTable)
      (columnTypes decimalOps breakTable (columnDomains decimalOps breakTable))) 1 0 ≠
        SHARED_DOMAIN :=
  ⟨⟨by decide, by decide, by decide⟩, by decide,
    columnRelations_continuous_never_shared breakTable
      (columnDomains decimalOps breakTable)
      (columnTypes decimalOps breakTable (columnDomains decimalOps breakTable)) 0 1
      (by decide)⟩

/-- C5 (the code at the failing input): in `breakTable` the columns `0` and
`2` are both `STRING_CATEGORY` and their domains share one string, more than
`0.01 * 2`; column `1` between them is `CONTINUOUS`, the inner loop of column
`0` breaks there, and `relations[0][2]` keeps the initial value `UNRELATED`
instead of `SHARED_DOMAIN`, also when `columnRelations` gets the converted
table as in `setTable`.  In `adjacentTable`, where the same two columns are
next to each other, their entry is `SHARED_DOMAIN`. -/
theorem columnRelations_break_leaves_pair_unmarked :
    columnTypes decimalOps breakTable (columnDomains decimalOps breakTable) =
      [STRING_CATEGORY, CONTINUOUS, STRING_CATEGORY] ∧
    sharesDomain breakTable.GetNumberOfRows (columnDomains decimalOps breakTable) 0 2 ∧
    relationAt (columnRelations breakTable (columnDomains decimalOps breakTable)
      (columnTypes decimalOps breakTable (columnDomains decimalOps breakTable))) 0 2 =
        UNRELATED ∧
    relationAt (columnRelations breakTable (columnDomains decimalOps breakTable)
      (columnTypes decimalOps breakTable (columnDomains decimalOps breakTable))) 0 2 ≠
        SHARED_DOMAIN ∧
    relationAt (columnRelations
      (convertTableColumns decimalOps breakTable
        (columnTypes decimalOps breakTable (columnDomains decimalOps breakTable)))
      (columnDomains decimalOps breakTable)
      (columnTypes decimalOps breakTable (columnDomains decimalOps breakTable))) 0 2 =
        UNRELATED ∧
    columnTypes decimalOps adjacentTable (columnDomains decimalOps adjacentTable) =
      [STRING_CATEGORY, STRING_CATEGORY, CONTINUOUS] ∧
    relationAt (columnRelations adjacentTable (columnDomains decimalOps adjacentTable)
      (columnTypes decimalOps adjacentTable (columnDomains decimalOps adjacentTable))) 0 1 =
        SHARED_DOMAIN := by
  refine ⟨by decide, by decide, by decide, by decide, by decide, by decide, by decide⟩

/-! ## `convertTableColumns` -/

theorem convert_fold (ops : VariantOps D) (table : Table D) (types : List Int)
    (k : Nat) :
    ((List.range k).foldl
      (fun (out : Table D) col =>
        match table.columns[col]? with
        | some arr =>
          { columns := out.columns ++
              [convertColumn ops table.GetNumberOfRows arr (types.getD col 0)] }
        | none => out)
      { columns := [] }).columns =
      (List.range k).filterMap (convertedAt ops table types) := by
  induction k with
  | zero => simp
  | succ k ih =>
    rw [List.range_succ, List.foldl_append, List.filterMap_append]
    simp only [List.foldl_cons, List.foldl_nil]
    unfold convertedAt at ih ⊢
    cases hk : table.columns[k]? with
    | none =>
      simp only [hk, List.filterMap_cons, List.filterMap_nil, Option.map_none',
        List.append_nil]
      exact ih
    | some arr =>
      simp only [hk, List.filterMap_cons, List.filterMap_nil, Option.map_some']
      rw [ih]

theorem filterMap_range_spec {α : Type} (g : Nat → Option α) :
    ∀ n, (∀ i, i < n → ∃ x, g i = some x) →
      ((List.range n).filterMap g).length = n ∧
      ∀ c, c < n → ((List.range n).filterMap g)[c]? = g c := by
  intro n
  induction n with
  | zero => intro _; simp
  | succ n ih =>
    intro h
    obtain ⟨ihl, ihe⟩ := ih (fun i hi => h i (by omega))
    obtain ⟨x, hx⟩ := h n (by omega)
    rw [List.range_succ, List.filterMap_append]
    have hlast : List.filterMap g [n] = [x] := by simp [hx]
    rw [hlast]
    refine ⟨by simp [ihl], ?_⟩
    intro c hc
    by_cases hcn : c < n
    · rw [List.getElem?_append_left (by omega), ihe c hcn]
    · have hcn' : c = n := by omega
      subst hcn'
      rw [List.getElem?_append_right (by omega), ihl, hx]
      simp

/-- The columns of the converted table: every input column, converted
according to the type tag of its index. -/
theorem convertTableColumns_columns (ops : VariantOps D) (table : Table D)
    (types : List Int) :
    (convertTableColumns ops table types).columns =
      table.columns.mapIdx
        (fun col arr => convertColumn ops table.GetNumberOfRows arr (types.getD col 0)) := by
  have hfold : (convertTableColumns ops table types).columns =
      (List.range table.GetNumberOfColumns).filterMap (convertedAt ops table types) :=
    convert_fold ops table types table.GetNumberOfColumns
  have hsome : ∀ i, i < table.GetNumberOfColumns →
      ∃ x, convertedAt ops table types i = some x := by
    intro i hi
    unfold convertedAt
    rw [List.getElem?_eq_getElem (by simpa [Table.GetNumberOfColumns] using hi)]
    exact ⟨_, rfl⟩
  obtain ⟨hl, he⟩ := filterMap_range_spec (convertedAt ops table types)
    table.GetNumberOfColumns hsome
  rw [hfold]
  apply List.ext_getElem?
  intro c
  rw [List.getElem?_mapIdx]
  by_cases hc : c < table.GetNumberOfColumns
  · rw [he c hc]; rfl
  · have h1 : table.columns[c]? = none :=
      List.getElem?_eq_none (by simp [Table.GetNumberOfColumns] at hc; omega)
    rw [List.getElem?_eq_none (by omega), h1]
    rfl

theorem convertColumn_name (ops : VariantOps D) (n : Nat) (arr : Column D) (type : Int) :
    (convertColumn ops n arr type).name = arr.name := by
  unfold convertColumn
  split
  · rfl
  · split <;> rfl

theorem convertColumn_tuples (ops : VariantOps D) (n : Nat) (arr : Column D) (type : Int)
    (h : arr.data.GetNumberOfTuples = n) :
    (convertColumn ops n arr type).data.GetNumberOfTuples = n := by
  unfold convertColumn
  split
  · simp [Storage.GetNumberOfTuples]
  · split
    · simp [Storage.GetNumberOfTuples]
    · exact h

theorem convertColumn_string (ops : VariantOps D) (n : Nat) (arr : Column D) (type : Int)
    (h : type = STRING_DATA ∨ type = STRING_CATEGORY) :
    convertColumn ops n arr type = arr := by
  unfold convertColumn
  have h1 : ¬ type = CONTINUOUS := by
    rcases h with h | h <;> rw [h] <;> decide
  have h2 : ¬ (type = INTEGER_CATEGORY ∨ type = INTEGER_DATA) := by
    rcases h with h | h <;> rw [h] <;> decide
  rw [if_neg h1, if_neg h2]

/-- C8: `convertTableColumns` keeps the number of columns, and at every
column index the name and the number of rows of the column; a column typed
`STRING_DATA` or `STRING_CATEGORY` is the input column itself, all its cells
unchanged. -/
theorem convertTableColumns_frame (ops : VariantOps D) (table : Table D)
    (types : List Int) (hlen : types.length = table.GetNumberOfColumns)
    (hrect : table.Rectangular) :
    (convertTableColumns ops table types).GetNumberOfColumns =
      table.GetNumberOfColumns ∧
    ∀ c, c < table.GetNumberOfColumns →
      ∃ arr out type, table.columns[c]? = some arr ∧ types[c]? = some type ∧
        (convertTableColumns ops table types).columns[c]? = some out ∧
        out.name = arr.name ∧
        out.data.GetNumberOfTuples = arr.data.GetNumberOfTuples ∧
        ((type = STRING_DATA ∨ type = STRING_CATEGORY) → out = arr) := by
  refine ⟨by simp [Table.GetNumberOfColumns, convertTableColumns_columns], ?_⟩
  intro c hc
  have hc' : c < table.columns.length := hc
  have hct : c < types.length := by omega
  refine ⟨table.columns[c],
    convertColumn ops table.GetNumberOfRows table.columns[c] (types.getD c 0),
    types[c], List.getElem?_eq_getElem hc', List.getElem?_eq_getElem hct, ?_,
    convertColumn_name _ _ _ _, ?_, ?_⟩
  · rw [convertTableColumns_columns, List.getElem?_mapIdx, List.getElem?_eq_getElem hc']
    rfl
  · have hrows := hrect table.columns[c] (List.getElem_mem _)
    rw [convertColumn_tuples ops _ _ _ hrows, hrows]
  · intro h
    apply convertColumn_string
    rw [List.getD_eq_getElem _ _ hct]
    exact h

/-- C8 (witness): the scenario table with its classified types. -/
theorem convertTableColumns_frame_witness :
    ([INTEGER_DATA, CONTINUOUS, STRING_CATEGORY].length =
        scenarioTable.GetNumberOfColumns ∧ scenarioTable.Rectangular) ∧
    (convertTableColumns decimalOps scenarioTable
        [INTEGER_DATA, CONTINUOUS, STRING_CATEGORY]).GetNumberOfColumns =
      scenarioTable.GetNumberOfColumns ∧
    ∀ c, c < scenarioTable.GetNumberOfColumns →
      ∃ arr out type, scenarioTable.columns[c]? = some arr ∧
        [INTEGER_DATA, CONTINUOUS, STRING_CATEGORY][c]? = some type ∧
        (convertTableColumns decimalOps scenarioTable
          [INTEGER_DATA, CONTINUOUS, STRING_CATEGORY]).columns[c]? = some out ∧
        out.name = arr.name ∧
        out.data.GetNumberOfTuples = arr.data.GetNumberOfTuples ∧
        ((type = STRING_DATA ∨ type = STRING_CATEGORY) → out = arr) :=
  have hrect : scenarioTable.Rectangular := by
    unfold Table.Rectangular; decide
  ⟨⟨by decide, hrect⟩,
    convertTableColumns_frame decimalOps scenarioTable
      [INTEGER_DATA, CONTINUOUS, STRING_CATEGORY] (by decide) hrect⟩

/-! ## Classifying and converting twice -/

end OpenView
